import Mathlib

/-!
Verification of `generate_cloud_rules.py` (little-snitch-cloud-rules).

The script fetches cloud-provider endpoint metadata and converts it into a
Little Snitch `.lsrules` allow-list file.  This development shallowly embeds
the pure transformation pipeline — notes construction, per-target rule
classification and port expansion (`extract_rules`), rule-file construction
(`generate_ov_file`), and the JSON serialization performed by
`json.dump` / `json.loads` — and proves the specified properties about it.
-/

namespace CloudRules

/-- Python truthiness of an optional string value (`None` and `""` are falsy),
as used by `service.get("tcpPorts")`-style guards in the script. -/
def pyTruthy : Option String → Bool
  | none => false
  | some s => s ≠ ""

/-- The three target-kind keys a rule dictionary can carry:
`"remote-domains"`, `"remote-hosts"`, `"remote-addresses"`. -/
inductive TargetKey where
  | remoteDomains
  | remoteHosts
  | remoteAddresses
deriving DecidableEq, Repr

/-- JSON field name of a target key. -/
def TargetKey.fieldName : TargetKey → String
  | .remoteDomains => "remote-domains"
  | .remoteHosts => "remote-hosts"
  | .remoteAddresses => "remote-addresses"

/-- One rule dictionary as built by `create_rule`: fixed `action` and
`process` fields, one target key holding a singleton list value, a `notes`
string, and optional `protocol`/`ports` fields. -/
structure Rule where
  action : String
  process : String
  key : TargetKey
  value : List String
  notes : String
  protocol : Option String
  ports : Option String
deriving DecidableEq, Repr

/-- One endpoint record (`service` dictionary) as the script reads it.
Metadata fields are `Option String` (absent vs. present, holding the
rendered value); `urls` and `ips` default to `[]` exactly as
`service.get("urls", [])` does. -/
structure Service where
  id : Option String := none
  serviceArea : Option String := none
  serviceAreaDisplayName : Option String := none
  tcpPorts : Option String := none
  udpPorts : Option String := none
  category : Option String := none
  expressRoute : Option String := none
  required : Option String := none
  notes : Option String := none
  urls : List String := []
  ips : List String := []
deriving DecidableEq, Repr

/-- A notes part guarded only by field presence:
`f"key: {service[k]}" if k in service else None`. -/
def notePart (k : String) (v : Option String) : Option String :=
  v.map (fun s => k ++ ": " ++ s)

/-- A notes part guarded by presence and truthiness:
`f"key: {service[k]}" if k in service and service[k] else None`. -/
def notePartTruthy (k : String) (v : Option String) : Option String :=
  match v with
  | none => none
  | some s => if s = "" then none else some (k ++ ": " ++ s)

/-- `build_notes`: render the metadata parts in source order, drop the `None`
entries (`filter(None, …)` — every rendered part is a non-empty string), and
join with `"\n"`. -/
def build_notes (s : Service) : String :=
  String.intercalate "\n" (List.filterMap id
    [ notePart "id" s.id,
      notePart "serviceArea" s.serviceArea,
      notePart "serviceAreaDisplayName" s.serviceAreaDisplayName,
      notePartTruthy "tcpPorts" s.tcpPorts,
      notePartTruthy "udpPorts" s.udpPorts,
      notePart "category" s.category,
      notePart "expressRoute" s.expressRoute,
      notePart "required" s.required,
      notePartTruthy "notes" s.notes ])

/-- Python `str.isspace` characters stripped by `str.strip()` (ASCII set). -/
def pyIsSpace (c : Char) : Bool :=
  c == ' ' || c == '\t' || c == '\n' || c == '\x0d' || c == '\x0b' || c == '\x0c'

/-- Python `str.strip()`: remove leading and trailing whitespace. -/
def pyStrip (s : String) : String :=
  String.mk (((s.data.dropWhile pyIsSpace).reverse.dropWhile pyIsSpace).reverse)

/-- `create_rule`: build the rule dictionary; `protocol` and `ports` are
added only when both are truthy (`if protocol and ports:`), and `ports` is
stripped of surrounding whitespace (`ports.strip()`). -/
def create_rule (key : TargetKey) (value : List String) (notes : String)
    (protocol : Option String) (ports : Option String) : Rule :=
  if pyTruthy protocol && pyTruthy ports then
    { action := "allow", process := "ANY", key := key, value := value,
      notes := notes, protocol := protocol, ports := ports.map pyStrip }
  else
    { action := "allow", process := "ANY", key := key, value := value,
      notes := notes, protocol := none, ports := none }

/-- The port-expansion block the script repeats for every target: when
`addPortRules` is set, emit a tcp rule if `tcpPorts` is truthy, a udp rule if
`udpPorts` is truthy, and a bare rule if neither is; otherwise emit one bare
rule. -/
def portRules (s : Service) (key : TargetKey) (value : List String)
    (notes : String) (addPortRules : Bool) : List Rule :=
  if addPortRules then
    (if pyTruthy s.tcpPorts then
      [create_rule key value notes (some "tcp") s.tcpPorts] else [])
    ++ (if pyTruthy s.udpPorts then
      [create_rule key value notes (some "udp") s.udpPorts] else [])
    ++ (if ¬ pyTruthy s.tcpPorts ∧ ¬ pyTruthy s.udpPorts then
      [create_rule key value notes none none] else [])
  else
    [create_rule key value notes none none]

/-- The body of the `for url in service.get("urls", [])` loop: classify the
URL target.  `"*" in url` is char membership, `url.startswith("*.")` is a
check of the first two characters, and `url.count("*")` counts occurrences.
A `*`-free target is an exact host; a target starting with `*.` and
containing exactly one `*` is a wildcard domain whose value drops the
leading `*.` (`url[2:]`); any other wildcard is skipped (`continue`). -/
def urlRules (s : Service) (notes : String) (addPortRules : Bool)
    (url : String) : List Rule :=
  if url.toList.contains '*' then
    if url.toList.take 2 == ['*', '.'] && url.toList.count '*' == 1 then
      portRules s .remoteDomains [url.drop 2] notes addPortRules
    else
      []
  else
    portRules s .remoteHosts [url] notes addPortRules

/-- One iteration of the `for service in endpoints` loop: build the notes
once, then process all URL targets followed by all IP targets. -/
def serviceRules (addPortRules : Bool) (s : Service) : List Rule :=
  let notes := build_notes s
  s.urls.flatMap (urlRules s notes addPortRules)
    ++ s.ips.flatMap (fun ip =>
        portRules s .remoteAddresses [ip] notes addPortRules)

/-- The fetched top-level value as the script can consume it: either a list
of records, or a mapping whose optional `"values"` field holds the records
(`endpoints.get("values", [])`). -/
inductive EndpointsInput where
  | list (records : List Service)
  | dict (values : Option (List Service))
deriving Repr

/-- Configuration constant `ADD_PORT_RULES = True`. -/
def ADD_PORT_RULES : Bool := true

/-- `extract_rules`: normalize a non-list input through its `"values"` field
(defaulting to the empty list), then accumulate rules record by record. -/
def extract_rules (addPortRules : Bool) : EndpointsInput → List Rule
  | .list records => records.flatMap (serviceRules addPortRules)
  | .dict values => (values.getD []).flatMap (serviceRules addPortRules)

/-! ## JSON values and serialization (`json.dump` / `json.loads`)

The script serializes nested dictionaries, lists and strings; that fragment
of JSON is modelled here, with the printer following
`json.dump(subscription, file, indent=4)` (default `ensure_ascii=True`
escaping, item separator `","`, key separator `": "`) and the parser
following `json.loads`. -/

/-- The JSON fragment produced by the script: strings, arrays, and objects
with ordered string-keyed members. -/
inductive JVal where
  | str (s : String)
  | arr (items : List JVal)
  | obj (members : List (String × JVal))

/-- Lower-case hex digit of a value below 16. -/
def hexDigit (n : Nat) : Char :=
  if n < 10 then Char.ofNat (48 + n) else Char.ofNat (87 + n)

/-- Four-digit hex rendering of a code unit, as in `\uXXXX` escapes. -/
def toHex4 (n : Nat) : List Char :=
  [hexDigit (n / 4096 % 16), hexDigit (n / 256 % 16),
   hexDigit (n / 16 % 16), hexDigit (n % 16)]

/-- `ensure_ascii` escaping of one character: shorthand escapes for the
two-character sequences JSON defines, raw output for printable ASCII, and
`\uXXXX` (with a surrogate pair above U+FFFF) for everything else. -/
def escapeChar (c : Char) : List Char :=
  if c = '"' then ['\\', '"']
  else if c = '\\' then ['\\', '\\']
  else if c = '\n' then ['\\', 'n']
  else if c = '\t' then ['\\', 't']
  else if c = '\r' then ['\\', 'r']
  else if c.toNat = 8 then ['\\', 'b']
  else if c.toNat = 12 then ['\\', 'f']
  else if 0x20 ≤ c.toNat ∧ c.toNat ≤ 0x7e then [c]
  else if c.toNat < 0x10000 then '\\' :: 'u' :: toHex4 c.toNat
  else
    '\\' :: 'u' :: toHex4 (0xd800 + (c.toNat - 0x10000) / 0x400)
      ++ '\\' :: 'u' :: toHex4 (0xdc00 + (c.toNat - 0x10000) % 0x400)

/-- Escape a whole character sequence. -/
def escapeList : List Char → List Char
  | [] => []
  | c :: cs => escapeChar c ++ escapeList cs

/-- A JSON string literal: quote, escaped contents, quote. -/
def renderString (s : String) : List Char :=
  '"' :: escapeList s.data ++ ['"']

/-- Indentation for nesting level `lvl` under `indent=4`. -/
def pad (lvl : Nat) : List Char :=
  List.replicate (4 * lvl) ' '

mutual

/-- Render a JSON value at nesting level `lvl`, following
`json.dump(..., indent=4)`. -/
def renderVal : Nat → JVal → List Char
  | _, .str s => renderString s
  | _, .arr [] => ['[', ']']
  | lvl, .arr (v :: vs) =>
      '[' :: '\n' :: pad (lvl + 1) ++ renderVal (lvl + 1) v
        ++ renderArrTail (lvl + 1) vs ++ '\n' :: pad lvl ++ [']']
  | _, .obj [] => ['\x7b', '\x7d']
  | lvl, .obj (kv :: kvs) =>
      '\x7b' :: '\n' :: pad (lvl + 1) ++ renderMember (lvl + 1) kv
        ++ renderObjTail (lvl + 1) kvs ++ '\n' :: pad lvl ++ ['\x7d']

/-- Render the remaining array items, each preceded by `",\n"` + padding. -/
def renderArrTail : Nat → List JVal → List Char
  | _, [] => []
  | lvl, v :: vs =>
      ',' :: '\n' :: pad lvl ++ renderVal lvl v ++ renderArrTail lvl vs

/-- Render one `"key": value` member. -/
def renderMember : Nat → String × JVal → List Char
  | lvl, (k, v) => renderString k ++ ':' :: ' ' :: renderVal lvl v

/-- Render the remaining object members, each preceded by `",\n"` + padding. -/
def renderObjTail : Nat → List (String × JVal) → List Char
  | _, [] => []
  | lvl, kv :: kvs =>
      ',' :: '\n' :: pad lvl ++ renderMember lvl kv ++ renderObjTail lvl kvs

end

/-- `json.dump`'s text for a value (written at top level, indent 4). -/
def json_dump (j : JVal) : String :=
  String.mk (renderVal 0 j)

/-- The JSON whitespace characters `json.loads` skips. -/
def isWsChar (c : Char) : Bool :=
  c == ' ' || c == '\n' || c == '\t' || c == '\r'

/-- Drop leading JSON whitespace. -/
def skipWs : List Char → List Char
  | [] => []
  | c :: cs => if isWsChar c then skipWs cs else c :: cs

/-- Decode one hex digit (either case). -/
def fromHexDigit (c : Char) : Option Nat :=
  if '0' ≤ c ∧ c ≤ '9' then some (c.toNat - 48)
  else if 'a' ≤ c ∧ c ≤ 'f' then some (c.toNat - 87)
  else if 'A' ≤ c ∧ c ≤ 'F' then some (c.toNat - 55)
  else none

/-- Decode a four-digit hex escape body. -/
def hex4 (a b c d : Char) : Option Nat := do
  let x ← fromHexDigit a
  let y ← fromHexDigit b
  let z ← fromHexDigit c
  let w ← fromHexDigit d
  pure (((x * 16 + y) * 16 + z) * 16 + w)

/-- Prepend a decoded character to a string-body parse result. -/
def consFst (c : Char) :
    Option (List Char × List Char) → Option (List Char × List Char) :=
  Option.map (fun p => (c :: p.1, p.2))

mutual

/-- Parse the body of a JSON string literal (after the opening quote) up to
and including the closing quote, decoding escapes, surrogate pairs included.
Returns the decoded characters and the remaining input. -/
def parseStringBody : List Char → Option (List Char × List Char)
  | [] => none
  | c :: rest =>
    if c = '"' then some ([], rest)
    else if c = '\\' then parseEscape rest
    else consFst c (parseStringBody rest)

/-- Decode one backslash escape (the input starts after the backslash). -/
def parseEscape : List Char → Option (List Char × List Char)
  | [] => none
  | e :: r =>
    if e = '"' then consFst '"' (parseStringBody r)
    else if e = '\\' then consFst '\\' (parseStringBody r)
    else if e = '/' then consFst '/' (parseStringBody r)
    else if e = 'n' then consFst '\n' (parseStringBody r)
    else if e = 't' then consFst '\t' (parseStringBody r)
    else if e = 'r' then consFst '\r' (parseStringBody r)
    else if e = 'b' then consFst (Char.ofNat 8) (parseStringBody r)
    else if e = 'f' then consFst (Char.ofNat 12) (parseStringBody r)
    else if e = 'u' then parseUnicode r
    else none

/-- Decode a `\uXXXX` escape (the input starts after the `u`), combining a
high surrogate with the following `\uXXXX` low surrogate. -/
def parseUnicode : List Char → Option (List Char × List Char)
  | a :: b :: c :: d :: r2 =>
    (hex4 a b c d).bind (fun n =>
      if 0xd800 ≤ n ∧ n < 0xdc00 then parseLowSurrogate n r2
      else if 0xdc00 ≤ n ∧ n < 0xe000 then none
      else consFst (Char.ofNat n) (parseStringBody r2))
  | _ => none

/-- Decode the `\uXXXX` low surrogate following a high surrogate `n`. -/
def parseLowSurrogate (n : Nat) : List Char → Option (List Char × List Char)
  | x1 :: x2 :: a2 :: b2 :: c3 :: d2 :: r3 =>
    if x1 = '\\' ∧ x2 = 'u' then
      (hex4 a2 b2 c3 d2).bind (fun m =>
        if 0xdc00 ≤ m ∧ m < 0xe000 then
          consFst
            (Char.ofNat (0x10000 + (n - 0xd800) * 0x400 + (m - 0xdc00)))
            (parseStringBody r3)
        else none)
    else none
  | _ => none

end

mutual

/-- Fuelled recursive-descent parser for the JSON fragment, modelling
`json.loads` on the values the script emits.  Returns the parsed value and
the unconsumed input. -/
def parseVal : Nat → List Char → Option (JVal × List Char)
  | 0, _ => none
  | fuel + 1, cs =>
    match skipWs cs with
    | [] => none
    | c :: rest =>
      if c = '"' then
        (parseStringBody rest).map (fun p => (.str (String.mk p.1), p.2))
      else if c = '[' then
        match skipWs rest with
        | [] => none
        | c2 :: r2 =>
          if c2 = ']' then some (.arr [], r2)
          else
            match parseVal fuel rest with
            | none => none
            | some (v, r3) =>
              match parseArrTail fuel r3 with
              | none => none
              | some (vs, r4) => some (.arr (v :: vs), r4)
      else if c = '\x7b' then
        match skipWs rest with
        | [] => none
        | c2 :: r2 =>
          if c2 = '\x7d' then some (.obj [], r2)
          else
            match parseMember fuel rest with
            | none => none
            | some (kv, r3) =>
              match parseObjTail fuel r3 with
              | none => none
              | some (kvs, r4) => some (.obj (kv :: kvs), r4)
      else none

/-- Parse one `"key": value` object member. -/
def parseMember : Nat → List Char → Option ((String × JVal) × List Char)
  | 0, _ => none
  | fuel + 1, cs =>
    match skipWs cs with
    | [] => none
    | c :: rest =>
      if c = '"' then
        match parseStringBody rest with
        | none => none
        | some (k, r2) =>
          match skipWs r2 with
          | [] => none
          | c2 :: r3 =>
            if c2 = ':' then
              match parseVal fuel r3 with
              | none => none
              | some (v, r4) => some ((String.mk k, v), r4)
            else none
      else none

/-- Parse the rest of an array: either `]`, or `,` followed by an item. -/
def parseArrTail : Nat → List Char → Option (List JVal × List Char)
  | 0, _ => none
  | fuel + 1, cs =>
    match skipWs cs with
    | [] => none
    | c :: rest =>
      if c = ',' then
        match parseVal fuel rest with
        | none => none
        | some (v, r2) =>
          match parseArrTail fuel r2 with
          | none => none
          | some (vs, r3) => some (v :: vs, r3)
      else if c = ']' then some ([], rest)
      else none

/-- Parse the rest of an object: either `}`, or `,` followed by a member. -/
def parseObjTail : Nat → List Char → Option (List (String × JVal) × List Char)
  | 0, _ => none
  | fuel + 1, cs =>
    match skipWs cs with
    | [] => none
    | c :: rest =>
      if c = ',' then
        match parseMember fuel rest with
        | none => none
        | some (kv, r2) =>
          match parseObjTail fuel r2 with
          | none => none
          | some (kvs, r3) => some (kv :: kvs, r3)
      else if c = '\x7d' then some ([], rest)
      else none

end

/-- `json.loads`: parse a whole document, requiring only whitespace after
the value.  The fuel `length + 2` dominates the recursion depth of any
parse of the input. -/
def json_loads (s : String) : Option JVal :=
  match parseVal (s.data.length + 2) s.data with
  | some (j, rem) => if skipWs rem = [] then some j else none
  | none => none

/-! ## Rule-file construction (`generate_ov_file`) -/

/-- The subscription object the writer builds: `name`, `description`,
`author`, and the rule list. -/
structure RuleFile where
  name : String
  description : String
  author : String
  rules : List Rule
deriving DecidableEq, Repr

/-- Python `str.capitalize()` (ASCII): first character upper-cased, the
rest lower-cased. -/
def pyCapitalize (s : String) : String :=
  match s.data with
  | [] => ""
  | c :: rest => String.mk (c.toUpper :: rest.map Char.toLower)

/-- The JSON object for one rule dictionary, in insertion order: `action`,
`process`, the target key, `notes`, then `protocol`/`ports` when set. -/
def rule_to_json (r : Rule) : JVal :=
  .obj
    ([("action", .str r.action), ("process", .str r.process),
      (r.key.fieldName, .arr (r.value.map .str)), ("notes", .str r.notes)]
      ++ (match r.protocol, r.ports with
          | some p, some q => [("protocol", .str p), ("ports", .str q)]
          | _, _ => []))

/-- The JSON object for the subscription, in insertion order. -/
def rulefile_to_json (f : RuleFile) : JVal :=
  .obj
    [("name", .str f.name), ("description", .str f.description),
     ("author", .str f.author), ("rules", .arr (f.rules.map rule_to_json))]

/-- Configuration constant `OUTPUT_DIR = "rules"`. -/
def OUTPUT_DIR : String := "rules"

/-- `generate_ov_file`: build the subscription object for a provider and
produce the output path and the serialized text that is written there. -/
def generate_ov_file (rules : List Rule) (provider : String) :
    RuleFile × String × String :=
  let subscription : RuleFile :=
    { name := pyCapitalize provider ++ " Cloud Access",
      description :=
        "Allows outbound traffic to " ++ pyCapitalize provider
          ++ " Cloud services.",
      author := "Automated Script",
      rules := rules }
  let filename := "cloud_rules_" ++ provider ++ ".lsrules"
  (subscription, OUTPUT_DIR ++ "/" ++ filename,
    json_dump (rulefile_to_json subscription))

/-! ## JSON round-trip lemmas -/

theorem char_toNat_valid (c : Char) :
    c.toNat < 0xd800 ∨ (0xe000 ≤ c.toNat ∧ c.toNat < 0x110000) := by
  rcases c.valid with h | ⟨h1, h2⟩
  · exact Or.inl h
  · exact Or.inr ⟨h1, h2⟩

theorem fromHexDigit_hexDigit (d : Nat) (h : d < 16) :
    fromHexDigit (hexDigit d) = some d := by
  interval_cases d <;> decide

theorem hex4_toHex4 (n : Nat) (h : n < 0x10000) :
    hex4 (hexDigit (n / 4096 % 16)) (hexDigit (n / 256 % 16))
      (hexDigit (n / 16 % 16)) (hexDigit (n % 16)) = some n := by
  rw [hex4, fromHexDigit_hexDigit _ (by omega), fromHexDigit_hexDigit _ (by omega),
    fromHexDigit_hexDigit _ (by omega), fromHexDigit_hexDigit _ (by omega)]
  show some _ = some n
  congr 1
  omega

theorem string_mk_data (s : String) : String.mk s.data = s := by
  cases s
  rfl

set_option maxHeartbeats 2000000 in
theorem parseStringBody_escapeList (cs : List Char) (rest : List Char) :
    parseStringBody (escapeList cs ++ '"' :: rest) = some (cs, rest) := by
  induction cs generalizing rest with
  | nil => simp [escapeList, parseStringBody]
  | cons c cs ih =>
    rw [escapeList, List.append_assoc, escapeChar]
    split_ifs with h1 h2 h3 h4 h5 h6 h7 h8 h9
    · subst h1
      simp [parseStringBody, parseEscape, consFst, ih]
    · subst h2
      simp [parseStringBody, parseEscape, consFst, ih]
    · subst h3
      simp [parseStringBody, parseEscape, consFst, ih]
    · subst h4
      simp [parseStringBody, parseEscape, consFst, ih]
    · subst h5
      simp [parseStringBody, parseEscape, consFst, ih]
    · have hc : Char.ofNat 8 = c := by
        rw [← h6, Char.ofNat_toNat]
      simp [parseStringBody, parseEscape, consFst, ih]
      exact hc
    · have hc : Char.ofNat 12 = c := by
        rw [← h7, Char.ofNat_toNat]
      simp [parseStringBody, parseEscape, consFst, ih]
      exact hc
    · -- printable character emitted raw
      simp [parseStringBody, h1, h2, consFst, ih]
    · -- single \uXXXX escape for a BMP character
      have hval := char_toNat_valid c
      have hns1 : ¬ (0xd800 ≤ c.toNat ∧ c.toNat < 0xdc00) := by omega
      have hns2 : ¬ (0xdc00 ≤ c.toNat ∧ c.toNat < 0xe000) := by omega
      rw [toHex4]
      simp only [List.cons_append, List.nil_append]
      rw [parseStringBody, if_neg (by decide : ¬ ('\\' : Char) = '"'),
        if_pos rfl, parseEscape, if_neg (by decide : ¬ ('u' : Char) = '"'),
        if_neg (by decide : ¬ ('u' : Char) = '\\'),
        if_neg (by decide : ¬ ('u' : Char) = '/'),
        if_neg (by decide : ¬ ('u' : Char) = 'n'),
        if_neg (by decide : ¬ ('u' : Char) = 't'),
        if_neg (by decide : ¬ ('u' : Char) = 'r'),
        if_neg (by decide : ¬ ('u' : Char) = 'b'),
        if_neg (by decide : ¬ ('u' : Char) = 'f'),
        if_pos rfl, parseUnicode, hex4_toHex4 c.toNat h9]
      simp only [Option.some_bind, if_neg hns1, if_neg hns2,
        Char.ofNat_toNat]
      simp [consFst, ih]
    · -- astral character: surrogate pair
      have hval := char_toNat_valid c
      have hlo : c.toNat < 0x110000 := by omega
      have hhi : 0x10000 ≤ c.toNat := by omega
      have hs1 : 0xd800 ≤ 0xd800 + (c.toNat - 0x10000) / 0x400 ∧
          0xd800 + (c.toNat - 0x10000) / 0x400 < 0xdc00 := by omega
      have hs2 : 0xdc00 ≤ 0xdc00 + (c.toNat - 0x10000) % 0x400 ∧
          0xdc00 + (c.toNat - 0x10000) % 0x400 < 0xe000 := by omega
      rw [toHex4, toHex4]
      simp only [List.cons_append, List.nil_append, List.append_assoc]
      rw [parseStringBody, if_neg (by decide : ¬ ('\\' : Char) = '"'),
        if_pos rfl, parseEscape, if_neg (by decide : ¬ ('u' : Char) = '"'),
        if_neg (by decide : ¬ ('u' : Char) = '\\'),
        if_neg (by decide : ¬ ('u' : Char) = '/'),
        if_neg (by decide : ¬ ('u' : Char) = 'n'),
        if_neg (by decide : ¬ ('u' : Char) = 't'),
        if_neg (by decide : ¬ ('u' : Char) = 'r'),
        if_neg (by decide : ¬ ('u' : Char) = 'b'),
        if_neg (by decide : ¬ ('u' : Char) = 'f'),
        if_pos rfl, parseUnicode,
        hex4_toHex4 (0xd800 + (c.toNat - 0x10000) / 0x400) (by omega)]
      rw [Option.some_bind]
      rw [if_pos hs1]
      rw [parseLowSurrogate,
        if_pos (⟨rfl, rfl⟩ : ('\\' : Char) = '\\' ∧ ('u' : Char) = 'u'),
        hex4_toHex4 (0xdc00 + (c.toNat - 0x10000) % 0x400) (by omega)]
      rw [Option.some_bind]
      rw [if_pos hs2]
      have hcomb : 0x10000 + (0xd800 + (c.toNat - 0x10000) / 0x400 - 0xd800) * 0x400
          + (0xdc00 + (c.toNat - 0x10000) % 0x400 - 0xdc00) = c.toNat := by omega
      rw [hcomb, Char.ofNat_toNat]
      simp [consFst, ih]

mutual

/-- Fuel sufficient to parse a rendered value. -/
def sizeV : JVal → Nat
  | .str _ => 1
  | .arr vs => 1 + sizeItems vs
  | .obj kvs => 1 + sizeMembers kvs

/-- Fuel sufficient to parse a rendered array tail. -/
def sizeItems : List JVal → Nat
  | [] => 1
  | v :: vs => 1 + sizeV v + sizeItems vs

/-- Fuel sufficient to parse a rendered object tail. -/
def sizeMembers : List (String × JVal) → Nat
  | [] => 1
  | kv :: kvs => 2 + sizeV kv.2 + sizeMembers kvs

end

theorem one_le_sizeV (j : JVal) : 1 ≤ sizeV j := by
  cases j <;> rw [sizeV] <;> omega

theorem one_le_sizeItems (vs : List JVal) : 1 ≤ sizeItems vs := by
  cases vs <;> rw [sizeItems] <;> omega

theorem one_le_sizeMembers (kvs : List (String × JVal)) : 1 ≤ sizeMembers kvs := by
  cases kvs <;> rw [sizeMembers] <;> omega

/-- All characters of a list are JSON whitespace. -/
def allWs (w : List Char) : Prop := ∀ c ∈ w, isWsChar c = true

theorem skipWs_append_allWs (w cs : List Char) (hw : allWs w) :
    skipWs (w ++ cs) = skipWs cs := by
  induction w with
  | nil => rw [List.nil_append]
  | cons c w ih =>
    rw [List.cons_append, skipWs, if_pos (hw c (List.mem_cons_self c w))]
    exact ih (fun x hx => hw x (List.mem_cons_of_mem c hx))

theorem skipWs_cons_neg (c : Char) (cs : List Char) (h : isWsChar c = false) :
    skipWs (c :: cs) = c :: cs := by
  rw [skipWs, if_neg (by simp [h])]

theorem allWs_pad (lvl : Nat) : allWs (pad lvl) := by
  intro c hc
  rw [pad] at hc
  have hcs := List.eq_of_mem_replicate hc
  subst hcs
  decide

theorem allWs_newline_pad (lvl : Nat) : allWs ('\n' :: pad lvl) := by
  intro c hc
  rcases List.mem_cons.mp hc with h | h
  · subst h
    decide
  · exact allWs_pad lvl c h

theorem allWs_single_space : allWs [' '] := by
  intro c hc
  rw [List.mem_singleton] at hc
  subst hc
  decide

theorem renderVal_cons (lvl : Nat) (j : JVal) :
    ∃ c l, renderVal lvl j = c :: l ∧ isWsChar c = false ∧
      c ≠ ']' ∧ c ≠ '\x7d' := by
  cases j with
  | str s =>
    refine ⟨'"', escapeList s.data ++ ['"'], ?_, by decide, by decide, by decide⟩
    rw [renderVal, renderString, List.cons_append]
  | arr vs =>
    cases vs with
    | nil =>
      exact ⟨'[', [']'], by rw [renderVal], by decide, by decide, by decide⟩
    | cons v vs =>
      refine ⟨'[', '\n' :: (pad (lvl + 1) ++ (renderVal (lvl + 1) v ++
        (renderArrTail (lvl + 1) vs ++ (('\n' :: pad lvl) ++ [']'])))),
        ?_, by decide, by decide, by decide⟩
      rw [renderVal]
      simp [List.cons_append, List.append_assoc]
  | obj kvs =>
    cases kvs with
    | nil =>
      exact ⟨'\x7b', ['\x7d'], by rw [renderVal], by decide, by decide, by decide⟩
    | cons kv kvs =>
      refine ⟨'\x7b', '\n' :: (pad (lvl + 1) ++ (renderMember (lvl + 1) kv ++
        (renderObjTail (lvl + 1) kvs ++ (('\n' :: pad lvl) ++ ['\x7d'])))),
        ?_, by decide, by decide, by decide⟩
      rw [renderVal]
      simp [List.cons_append, List.append_assoc]

theorem renderMember_cons (lvl : Nat) (k : String) (v : JVal) :
    renderMember lvl (k, v) =
      '"' :: (escapeList k.data ++ ('"' :: (':' :: (' ' :: renderVal lvl v)))) := by
  rw [renderMember, renderString]
  simp [List.cons_append, List.append_assoc]

set_option maxHeartbeats 4000000 in
theorem parse_render_all (fuel : Nat) :
    (∀ j lvl w rest, allWs w → sizeV j ≤ fuel →
        parseVal fuel (w ++ (renderVal lvl j ++ rest)) = some (j, rest))
    ∧ (∀ k v lvl w rest, allWs w → 1 + sizeV v ≤ fuel →
        parseMember fuel (w ++ (renderMember lvl (k, v) ++ rest)) =
          some ((k, v), rest))
    ∧ (∀ vs lvl w rest, allWs w → sizeItems vs ≤ fuel →
        parseArrTail fuel (renderArrTail lvl vs ++ (w ++ (']' :: rest))) =
          some (vs, rest))
    ∧ (∀ kvs lvl w rest, allWs w → sizeMembers kvs ≤ fuel →
        parseObjTail fuel (renderObjTail lvl kvs ++ (w ++ ('\x7d' :: rest))) =
          some (kvs, rest)) := by
  induction fuel with
  | zero =>
    refine ⟨?_, ?_, ?_, ?_⟩
    · intro j lvl w rest hw hsz
      have := one_le_sizeV j
      omega
    · intro k v lvl w rest hw hsz
      have := one_le_sizeV v
      omega
    · intro vs lvl w rest hw hsz
      have := one_le_sizeItems vs
      omega
    · intro kvs lvl w rest hw hsz
      have := one_le_sizeMembers kvs
      omega
  | succ fuel ih =>
    obtain ⟨ihV, ihM, ihA, ihO⟩ := ih
    refine ⟨?_, ?_, ?_, ?_⟩
    · -- parseVal round trip
      intro j lvl w rest hw hsz
      cases j with
      | str s =>
        have hsw : skipWs (w ++ (renderVal lvl (.str s) ++ rest)) =
            '"' :: (escapeList s.data ++ ('"' :: rest)) := by
          rw [skipWs_append_allWs w _ hw, renderVal, renderString]
          simp only [List.cons_append, List.append_assoc, List.singleton_append]
          exact skipWs_cons_neg _ _ (by decide)
        rw [parseVal, hsw]
        dsimp only
        rw [if_pos rfl, parseStringBody_escapeList]
        simp [string_mk_data]
      | arr vs =>
        cases vs with
        | nil =>
          have hsw : skipWs (w ++ (renderVal lvl (.arr []) ++ rest)) =
              '[' :: (']' :: rest) := by
            rw [skipWs_append_allWs w _ hw, renderVal]
            simp only [List.cons_append, List.nil_append]
            exact skipWs_cons_neg _ _ (by decide)
          rw [parseVal, hsw]
          dsimp only
          rw [if_neg (by decide : ¬ ('[' : Char) = '"'), if_pos rfl,
            skipWs_cons_neg _ _ (by decide)]
          dsimp only
          rw [if_pos rfl]
        | cons v vs =>
          obtain ⟨c, l, hcl, hcw, hcrb, hccb⟩ := renderVal_cons (lvl + 1) v
          rw [sizeV, sizeItems] at hsz
          have hsw : skipWs (w ++ (renderVal lvl (.arr (v :: vs)) ++ rest)) =
              '[' :: ('\n' :: (pad (lvl + 1) ++ (renderVal (lvl + 1) v ++
                (renderArrTail (lvl + 1) vs ++
                  ('\n' :: (pad lvl ++ (']' :: rest))))))) := by
            rw [skipWs_append_allWs w _ hw, renderVal]
            simp only [List.cons_append, List.append_assoc,
              List.singleton_append]
            exact skipWs_cons_neg _ _ (by decide)
          rw [parseVal, hsw]
          dsimp only
          rw [if_neg (by decide : ¬ ('[' : Char) = '"'), if_pos rfl]
          have hsw2 : skipWs ('\n' :: (pad (lvl + 1) ++ (renderVal (lvl + 1) v ++
              (renderArrTail (lvl + 1) vs ++
                ('\n' :: (pad lvl ++ (']' :: rest))))))) =
              c :: (l ++ (renderArrTail (lvl + 1) vs ++
                ('\n' :: (pad lvl ++ (']' :: rest))))) := by
            rw [show ('\n' :: (pad (lvl + 1) ++ (renderVal (lvl + 1) v ++
                (renderArrTail (lvl + 1) vs ++
                  ('\n' :: (pad lvl ++ (']' :: rest))))))) =
                (('\n' :: pad (lvl + 1)) ++ (renderVal (lvl + 1) v ++
                  (renderArrTail (lvl + 1) vs ++
                    ('\n' :: (pad lvl ++ (']' :: rest)))))) from by
              simp [List.cons_append]]
            rw [skipWs_append_allWs _ _ (allWs_newline_pad (lvl + 1)), hcl,
              List.cons_append]
            exact skipWs_cons_neg _ _ hcw
          rw [hsw2]
          dsimp only
          rw [if_neg hcrb]
          have hv := ihV v (lvl + 1) ('\n' :: pad (lvl + 1))
            (renderArrTail (lvl + 1) vs ++ ('\n' :: (pad lvl ++ (']' :: rest))))
            (allWs_newline_pad (lvl + 1)) (by omega)
          simp only [List.cons_append] at hv
          rw [hv]
          dsimp only
          have ha := ihA vs (lvl + 1) ('\n' :: pad lvl) rest
            (allWs_newline_pad lvl) (by omega)
          simp only [List.cons_append, List.append_assoc] at ha
          rw [ha]
      | obj kvs =>
        cases kvs with
        | nil =>
          have hsw : skipWs (w ++ (renderVal lvl (.obj []) ++ rest)) =
              '\x7b' :: ('\x7d' :: rest) := by
            rw [skipWs_append_allWs w _ hw, renderVal]
            simp only [List.cons_append, List.nil_append]
            exact skipWs_cons_neg _ _ (by decide)
          rw [parseVal, hsw]
          dsimp only
          rw [if_neg (by decide : ¬ ('\x7b' : Char) = '"'),
            if_neg (by decide : ¬ ('\x7b' : Char) = '['), if_pos rfl,
            skipWs_cons_neg _ _ (by decide)]
          dsimp only
          rw [if_pos rfl]
        | cons kv kvs =>
          obtain ⟨k, v⟩ := kv
          rw [sizeV, sizeMembers] at hsz
          dsimp only at hsz
          have hsw : skipWs (w ++ (renderVal lvl (.obj ((k, v) :: kvs)) ++ rest)) =
              '\x7b' :: ('\n' :: (pad (lvl + 1) ++ (renderMember (lvl + 1) (k, v) ++
                (renderObjTail (lvl + 1) kvs ++
                  ('\n' :: (pad lvl ++ ('\x7d' :: rest))))))) := by
            rw [skipWs_append_allWs w _ hw, renderVal]
            simp only [List.cons_append, List.append_assoc,
              List.singleton_append]
            exact skipWs_cons_neg _ _ (by decide)
          rw [parseVal, hsw]
          dsimp only
          rw [if_neg (by decide : ¬ ('\x7b' : Char) = '"'),
            if_neg (by decide : ¬ ('\x7b' : Char) = '['), if_pos rfl]
          have hsw2 : skipWs ('\n' :: (pad (lvl + 1) ++ (renderMember (lvl + 1) (k, v) ++
              (renderObjTail (lvl + 1) kvs ++
                ('\n' :: (pad lvl ++ ('\x7d' :: rest))))))) =
              '"' :: (escapeList k.data ++ ('"' :: (':' :: (' ' :: renderVal (lvl + 1) v))) ++
                (renderObjTail (lvl + 1) kvs ++
                  ('\n' :: (pad lvl ++ ('\x7d' :: rest))))) := by
            rw [show ('\n' :: (pad (lvl + 1) ++ (renderMember (lvl + 1) (k, v) ++
                (renderObjTail (lvl + 1) kvs ++
                  ('\n' :: (pad lvl ++ ('\x7d' :: rest))))))) =
                (('\n' :: pad (lvl + 1)) ++ (renderMember (lvl + 1) (k, v) ++
                  (renderObjTail (lvl + 1) kvs ++
                    ('\n' :: (pad lvl ++ ('\x7d' :: rest)))))) from by
              simp [List.cons_append]]
            rw [skipWs_append_allWs _ _ (allWs_newline_pad (lvl + 1)),
              renderMember_cons, List.cons_append]
            exact skipWs_cons_neg _ _ (by decide)
          rw [hsw2]
          dsimp only
          rw [if_neg (by decide : ¬ ('"' : Char) = '\x7d')]
          have hm := ihM k v (lvl + 1) ('\n' :: pad (lvl + 1))
            (renderObjTail (lvl + 1) kvs ++ ('\n' :: (pad lvl ++ ('\x7d' :: rest))))
            (allWs_newline_pad (lvl + 1)) (by omega)
          simp only [List.cons_append] at hm
          rw [hm]
          dsimp only
          have ho := ihO kvs (lvl + 1) ('\n' :: pad lvl) rest
            (allWs_newline_pad lvl) (by omega)
          simp only [List.cons_append, List.append_assoc] at ho
          rw [ho]
    · -- parseMember round trip
      intro k v lvl w rest hw hsz
      have hsw : skipWs (w ++ (renderMember lvl (k, v) ++ rest)) =
          '"' :: (escapeList k.data ++
            ('"' :: (':' :: (' ' :: (renderVal lvl v ++ rest))))) := by
        rw [skipWs_append_allWs w _ hw, renderMember_cons]
        simp only [List.cons_append, List.append_assoc]
        exact skipWs_cons_neg _ _ (by decide)
      rw [parseMember, hsw]
      dsimp only
      rw [if_pos rfl, parseStringBody_escapeList]
      dsimp only
      rw [skipWs_cons_neg _ _ (by decide : isWsChar ':' = false)]
      dsimp only
      rw [if_pos rfl]
      have hv := ihV v lvl [' '] rest allWs_single_space (by omega)
      simp only [List.singleton_append] at hv
      rw [hv]
    · -- parseArrTail round trip
      intro vs lvl w rest hw hsz
      cases vs with
      | nil =>
        rw [renderArrTail, List.nil_append, parseArrTail,
          skipWs_append_allWs w _ hw, skipWs_cons_neg _ _ (by decide)]
        dsimp only
        rw [if_neg (by decide : ¬ (']' : Char) = ','), if_pos rfl]
      | cons v vs =>
        rw [sizeItems] at hsz
        rw [renderArrTail]
        simp only [List.cons_append, List.append_assoc]
        rw [parseArrTail, skipWs_cons_neg _ _ (by decide)]
        dsimp only
        rw [if_pos rfl]
        have hv := ihV v lvl ('\n' :: pad lvl)
          (renderArrTail lvl vs ++ (w ++ (']' :: rest)))
          (allWs_newline_pad lvl) (by omega)
        simp only [List.cons_append] at hv
        rw [hv]
        dsimp only
        rw [ihA vs lvl w rest hw (by omega)]
    · -- parseObjTail round trip
      intro kvs lvl w rest hw hsz
      cases kvs with
      | nil =>
        rw [renderObjTail, List.nil_append, parseObjTail,
          skipWs_append_allWs w _ hw, skipWs_cons_neg _ _ (by decide)]
        dsimp only
        rw [if_neg (by decide : ¬ ('\x7d' : Char) = ','), if_pos rfl]
      | cons kv kvs =>
        obtain ⟨k, v⟩ := kv
        rw [sizeMembers] at hsz
        dsimp only at hsz
        rw [renderObjTail]
        simp only [List.cons_append, List.append_assoc]
        rw [parseObjTail, skipWs_cons_neg _ _ (by decide)]
        dsimp only
        rw [if_pos rfl]
        have hm := ihM k v lvl ('\n' :: pad lvl)
          (renderObjTail lvl kvs ++ (w ++ ('\x7d' :: rest)))
          (allWs_newline_pad lvl) (by omega)
        simp only [List.cons_append] at hm
        rw [hm]
        dsimp only
        rw [ihO kvs lvl w rest hw (by omega)]

mutual

theorem sizeV_le_length (lvl : Nat) (j : JVal) :
    sizeV j ≤ (renderVal lvl j).length := by
  cases j with
  | str s =>
    rw [sizeV, renderVal, renderString]
    simp only [List.length_append, List.length_cons]
    omega
  | arr vs =>
    cases vs with
    | nil =>
      rw [sizeV, sizeItems, renderVal]
      simp
    | cons v vs =>
      have h1 := sizeV_le_length (lvl + 1) v
      have h2 := sizeItems_le_length (lvl + 1) vs
      rw [sizeV, sizeItems, renderVal]
      simp only [List.length_cons, List.length_append]
      omega
  | obj kvs =>
    cases kvs with
    | nil =>
      rw [sizeV, sizeMembers, renderVal]
      simp
    | cons kv kvs =>
      have h1 := sizeMember_le_length (lvl + 1) kv
      have h2 := sizeMembers_le_length (lvl + 1) kvs
      rw [sizeV, sizeMembers, renderVal]
      simp only [List.length_cons, List.length_append]
      omega

theorem sizeItems_le_length (lvl : Nat) (vs : List JVal) :
    sizeItems vs ≤ (renderArrTail lvl vs).length + 1 := by
  cases vs with
  | nil =>
    rw [sizeItems, renderArrTail]
    simp
  | cons v vs =>
    have h1 := sizeV_le_length lvl v
    have h2 := sizeItems_le_length lvl vs
    rw [sizeItems, renderArrTail]
    simp only [List.length_cons, List.length_append]
    omega

theorem sizeMembers_le_length (lvl : Nat) (kvs : List (String × JVal)) :
    sizeMembers kvs ≤ (renderObjTail lvl kvs).length + 1 := by
  cases kvs with
  | nil =>
    rw [sizeMembers, renderObjTail]
    simp
  | cons kv kvs =>
    have h1 := sizeMember_le_length lvl kv
    have h2 := sizeMembers_le_length lvl kvs
    rw [sizeMembers, renderObjTail]
    simp only [List.length_cons, List.length_append]
    omega

theorem sizeMember_le_length (lvl : Nat) (kv : String × JVal) :
    2 + sizeV kv.2 ≤ (renderMember lvl kv).length + 1 := by
  obtain ⟨k, v⟩ := kv
  have h1 := sizeV_le_length lvl v
  rw [renderMember_cons]
  simp only [List.length_cons, List.length_append]
  omega

end

/-- Parsing inverts printing: `json.loads` recovers exactly the value that
`json.dump` wrote. -/
theorem json_loads_json_dump (j : JVal) : json_loads (json_dump j) = some j := by
  have hb := sizeV_le_length 0 j
  have h := (parse_render_all ((renderVal 0 j).length + 2)).1 j 0 [] []
    (by intro c hc; cases hc) (by omega)
  rw [List.nil_append, List.append_nil] at h
  rw [json_loads]
  show (match parseVal ((renderVal 0 j).length + 2) (renderVal 0 j) with
    | some (v, rem) => if skipWs rem = [] then some v else none
    | none => none) = some j
  rw [h]
  dsimp only
  simp [skipWs]

/-! ## Structural lemmas about rule emission -/

theorem pyTruthy_some_iff (s : String) : pyTruthy (some s) = true ↔ s ≠ "" := by
  simp [pyTruthy]

theorem create_rule_none_fields (key : TargetKey) (value : List String)
    (notes : String) :
    create_rule key value notes none none =
      { action := "allow", process := "ANY", key := key, value := value,
        notes := notes, protocol := none, ports := none } := by
  rw [create_rule]
  simp [pyTruthy]

theorem create_rule_some_fields (key : TargetKey) (value : List String)
    (notes : String) (p spec : String) (hp : p ≠ "") (hs : spec ≠ "") :
    create_rule key value notes (some p) (some spec) =
      { action := "allow", process := "ANY", key := key, value := value,
        notes := notes, protocol := some p, ports := some (pyStrip spec) } := by
  rw [create_rule, if_pos]
  · rfl
  · simp [pyTruthy, hp, hs]

theorem portRules_disabled (s : Service) (key : TargetKey)
    (value : List String) (notes : String) :
    portRules s key value notes false = [create_rule key value notes none none] := by
  rw [portRules, if_neg (by simp)]

theorem portRules_noPorts (s : Service) (key : TargetKey) (value : List String)
    (notes : String) (apr : Bool) (ht : pyTruthy s.tcpPorts = false)
    (hu : pyTruthy s.udpPorts = false) :
    portRules s key value notes apr = [create_rule key value notes none none] := by
  cases apr with
  | false => exact portRules_disabled s key value notes
  | true =>
    rw [portRules, if_pos rfl, if_neg (by simp [ht]), if_neg (by simp [hu]),
      if_pos ⟨by simp [ht], by simp [hu]⟩]
    simp

theorem portRules_both (s : Service) (key : TargetKey) (value : List String)
    (notes : String) (tcp udp : String) (ht : s.tcpPorts = some tcp)
    (hu : s.udpPorts = some udp) (htne : tcp ≠ "") (hune : udp ≠ "") :
    portRules s key value notes true =
      [create_rule key value notes (some "tcp") (some tcp),
       create_rule key value notes (some "udp") (some udp)] := by
  rw [portRules, if_pos rfl, ht, hu,
    if_pos ((pyTruthy_some_iff tcp).mpr htne),
    if_pos ((pyTruthy_some_iff udp).mpr hune),
    if_neg (by simp [pyTruthy, htne])]
  simp

theorem portRules_ne_nil (s : Service) (key : TargetKey) (value : List String)
    (notes : String) (apr : Bool) :
    portRules s key value notes apr ≠ [] := by
  rw [portRules]
  split_ifs with h1 h2 h3 h4 <;> simp_all

theorem mem_portRules (s : Service) (key : TargetKey) (value : List String)
    (notes : String) (apr : Bool) (r : Rule)
    (hr : r ∈ portRules s key value notes apr) :
    r.action = "allow" ∧ r.process = "ANY" ∧ r.key = key ∧ r.value = value
      ∧ r.notes = notes
      ∧ ((r.protocol = none ∧ r.ports = none)
        ∨ (∃ spec, s.tcpPorts = some spec ∧ spec ≠ "" ∧
            r.protocol = some "tcp" ∧ r.ports = some (pyStrip spec))
        ∨ (∃ spec, s.udpPorts = some spec ∧ spec ≠ "" ∧
            r.protocol = some "udp" ∧ r.ports = some (pyStrip spec))) := by
  cases apr with
  | false =>
    rw [portRules_disabled, List.mem_singleton] at hr
    subst hr
    rw [create_rule_none_fields]
    exact ⟨rfl, rfl, rfl, rfl, rfl, Or.inl ⟨rfl, rfl⟩⟩
  | true =>
    rw [portRules, if_pos rfl] at hr
    by_cases htc : pyTruthy s.tcpPorts = true
    · obtain ⟨tcp, htcp⟩ : ∃ x, s.tcpPorts = some x := by
        cases hx : s.tcpPorts with
        | none => rw [hx] at htc; simp [pyTruthy] at htc
        | some x => exact ⟨x, rfl⟩
      have htne : tcp ≠ "" := (pyTruthy_some_iff tcp).mp (htcp ▸ htc)
      by_cases huc : pyTruthy s.udpPorts = true
      · obtain ⟨udp, hudp⟩ : ∃ x, s.udpPorts = some x := by
          cases hx : s.udpPorts with
          | none => rw [hx] at huc; simp [pyTruthy] at huc
          | some x => exact ⟨x, rfl⟩
        have hune : udp ≠ "" := (pyTruthy_some_iff udp).mp (hudp ▸ huc)
        rw [if_pos htc, if_pos huc, if_neg (by simp [htc])] at hr
        simp only [List.append_nil, List.mem_append, List.mem_singleton] at hr
        rcases hr with hr | hr <;> subst hr
        · rw [htcp, create_rule_some_fields _ _ _ _ _ (by decide) htne]
          exact ⟨rfl, rfl, rfl, rfl, rfl,
            Or.inr (Or.inl ⟨tcp, rfl, htne, rfl, rfl⟩)⟩
        · rw [hudp, create_rule_some_fields _ _ _ _ _ (by decide) hune]
          exact ⟨rfl, rfl, rfl, rfl, rfl,
            Or.inr (Or.inr ⟨udp, rfl, hune, rfl, rfl⟩)⟩
      · rw [if_pos htc, if_neg huc, if_neg (by simp [htc])] at hr
        simp only [List.append_nil, List.nil_append, List.mem_append,
          List.mem_singleton] at hr
        subst hr
        rw [htcp, create_rule_some_fields _ _ _ _ _ (by decide) htne]
        exact ⟨rfl, rfl, rfl, rfl, rfl,
          Or.inr (Or.inl ⟨tcp, rfl, htne, rfl, rfl⟩)⟩
    · by_cases huc : pyTruthy s.udpPorts = true
      · obtain ⟨udp, hudp⟩ : ∃ x, s.udpPorts = some x := by
          cases hx : s.udpPorts with
          | none => rw [hx] at huc; simp [pyTruthy] at huc
          | some x => exact ⟨x, rfl⟩
        have hune : udp ≠ "" := (pyTruthy_some_iff udp).mp (hudp ▸ huc)
        rw [if_neg htc, if_pos huc, if_neg (by simp [huc])] at hr
        simp only [List.append_nil, List.nil_append, List.mem_append,
          List.mem_singleton] at hr
        subst hr
        rw [hudp, create_rule_some_fields _ _ _ _ _ (by decide) hune]
        exact ⟨rfl, rfl, rfl, rfl, rfl,
          Or.inr (Or.inr ⟨udp, rfl, hune, rfl, rfl⟩)⟩
      · rw [if_neg htc, if_neg huc,
          if_pos ⟨by simp [htc], by simp [huc]⟩] at hr
        simp only [List.nil_append, List.mem_singleton] at hr
        subst hr
        rw [create_rule_none_fields]
        exact ⟨rfl, rfl, rfl, rfl, rfl, Or.inl ⟨rfl, rfl⟩⟩

/-- Every rule a record contributes comes from `portRules` applied to that
record, with the record's notes string, and with a key/value pair derived
from one of its targets. -/
theorem mem_serviceRules (apr : Bool) (s : Service) (r : Rule)
    (hr : r ∈ serviceRules apr s) :
    ∃ key value, r ∈ portRules s key value (build_notes s) apr := by
  rw [serviceRules] at hr
  simp only [List.mem_append, List.mem_flatMap] at hr
  rcases hr with ⟨url, _, hurl⟩ | ⟨ip, _, hip⟩
  · rw [urlRules] at hurl
    split_ifs at hurl with h1 h2
    · exact ⟨_, _, hurl⟩
    · cases hurl
    · exact ⟨_, _, hurl⟩
  · exact ⟨_, _, hip⟩

/-- Neither the notes nor the per-target emission depend on the record's
`urls` field. -/
theorem build_notes_set_urls (s : Service) (u : List String) :
    build_notes { s with urls := u } = build_notes s := rfl

theorem urlRules_set_urls (s : Service) (u : List String) :
    urlRules { s with urls := u } = urlRules s := rfl

theorem portRules_set_urls (s : Service) (u : List String) :
    portRules { s with urls := u } = portRules s := rfl

/-! ## Claim theorems -/

/-- C1: every URL target containing at least one `*` that is not a leading
`*.` wildcard with exactly one `*` overall yields no rule, and extraction
continues with the remaining targets of that record and the remaining
records unchanged. -/
theorem c1_nonstandard_wildcard_skipped (url : String)
    (hstar : url.toList.contains '*' = true)
    (hbad : ¬ (url.toList.take 2 = ['*', '.'] ∧ url.toList.count '*' = 1))
    (s : Service) (notes : String) (apr : Bool)
    (pre post : List String) (recs1 recs2 : List Service) :
    urlRules s notes apr url = []
    ∧ serviceRules apr { s with urls := pre ++ url :: post }
        = serviceRules apr { s with urls := pre ++ post }
    ∧ extract_rules apr
        (.list (recs1 ++ { s with urls := pre ++ url :: post } :: recs2))
      = extract_rules apr
        (.list (recs1 ++ { s with urls := pre ++ post } :: recs2)) := by
  have hb : ¬ ((url.toList.take 2 == ['*', '.'] && url.toList.count '*' == 1) = true) := by
    simp only [Bool.and_eq_true, beq_iff_eq]
    exact hbad
  have hnil : ∀ s' n a, urlRules s' n a url = [] := by
    intro s' n a
    rw [urlRules, if_pos hstar, if_neg hb]
  have hsvc : serviceRules apr { s with urls := pre ++ url :: post }
      = serviceRules apr { s with urls := pre ++ post } := by
    rw [serviceRules, serviceRules]
    simp only [List.flatMap_append, List.flatMap_cons, hnil, List.nil_append,
      build_notes_set_urls, urlRules_set_urls, portRules_set_urls]
  refine ⟨hnil s notes apr, hsvc, ?_⟩
  rw [extract_rules, extract_rules]
  simp only [List.flatMap_append, List.flatMap_cons, hsvc]

theorem c1_witness :
    ("*.*.contoso.com".toList.contains '*' = true
      ∧ ¬ ("*.*.contoso.com".toList.take 2 = ['*', '.']
            ∧ "*.*.contoso.com".toList.count '*' = 1))
    ∧ urlRules {} "" true "*.*.contoso.com" = [] :=
  ⟨⟨by decide, by decide⟩,
    (c1_nonstandard_wildcard_skipped "*.*.contoso.com" (by decide) (by decide)
      {} "" true [] [] [] []).1⟩

/-- C2: a `*`-free URL target is classified as an exact-host rule whose value
is the unmodified target; a target starting with `*.` and containing exactly
one `*` is classified as a wildcard-domain rule whose value is the target
with the leading `*.` stripped.  In both cases at least one rule is
emitted and every emitted rule carries that key and value. -/
theorem c2_url_classification (url : String) (s : Service) (notes : String)
    (apr : Bool) :
    (url.toList.contains '*' = false →
      urlRules s notes apr url = portRules s .remoteHosts [url] notes apr
      ∧ urlRules s notes apr url ≠ []
      ∧ ∀ r ∈ urlRules s notes apr url,
          r.key = .remoteHosts ∧ r.value = [url])
    ∧ (url.toList.take 2 = ['*', '.'] → url.toList.count '*' = 1 →
      urlRules s notes apr url = portRules s .remoteDomains [url.drop 2] notes apr
      ∧ urlRules s notes apr url ≠ []
      ∧ ∀ r ∈ urlRules s notes apr url,
          r.key = .remoteDomains ∧ r.value = [url.drop 2]) := by
  constructor
  · intro hns
    have he : urlRules s notes apr url = portRules s .remoteHosts [url] notes apr := by
      rw [urlRules, if_neg (by rw [hns]; exact Bool.false_ne_true)]
    refine ⟨he, he ▸ portRules_ne_nil _ _ _ _ _, ?_⟩
    intro r hr
    rw [he] at hr
    have h := mem_portRules _ _ _ _ _ _ hr
    exact ⟨h.2.2.1, h.2.2.2.1⟩
  · intro hsw hcount
    have hstar : url.toList.contains '*' = true := by
      exact List.elem_iff.mpr (List.count_pos_iff.mp (by omega))
    have he : urlRules s notes apr url
        = portRules s .remoteDomains [url.drop 2] notes apr := by
      rw [urlRules, if_pos hstar,
        if_pos (by simp only [Bool.and_eq_true, beq_iff_eq]; exact ⟨hsw, hcount⟩)]
    refine ⟨he, he ▸ portRules_ne_nil _ _ _ _ _, ?_⟩
    intro r hr
    rw [he] at hr
    have h := mem_portRules _ _ _ _ _ _ hr
    exact ⟨h.2.2.1, h.2.2.2.1⟩

theorem c2_witness :
    ("mail.contoso.com".toList.contains '*' = false
      ∧ urlRules {} "" true "mail.contoso.com"
          = portRules {} .remoteHosts ["mail.contoso.com"] "" true)
    ∧ ("*.contoso.com".toList.take 2 = ['*', '.']
      ∧ "*.contoso.com".toList.count '*' = 1
      ∧ urlRules {} "" true "*.contoso.com"
          = portRules {} .remoteDomains ["*.contoso.com".drop 2] "" true
      ∧ "*.contoso.com".drop 2 = "contoso.com") :=
  ⟨⟨by decide,
      ((c2_url_classification "mail.contoso.com" {} "" true).1 (by decide)).1⟩,
    ⟨by decide, by decide,
      ((c2_url_classification "*.contoso.com" {} "" true).2
        (by decide) (by decide)).1, by decide⟩⟩

/-- C3 as stated is refuted: the emitted rule's `ports` value is the
record's port spec with surrounding whitespace stripped, not the spec
string itself.  With `tcpPorts = " 443"` the tcp rule carries `"443"`. -/
theorem c3_counterexample :
    (portRules { tcpPorts := some " 443", udpPorts := some "3478" }
        .remoteHosts ["mail.contoso.com"] "" true).map
      (fun r => (r.protocol, r.ports))
      = [(some "tcp", some "443"), (some "udp", some "3478")]
    ∧ (some "443" : Option String) ≠ some " 443" := by
  constructor
  · decide
  · decide

/-- C3 (amended): with port-rule generation enabled, a record declaring both
a TCP and a UDP port spec yields, per accepted target, exactly two rules:
first one with protocol `"tcp"` whose ports value is the TCP spec stripped
of surrounding whitespace, then one with protocol `"udp"` whose ports value
is the UDP spec stripped likewise. -/
theorem c3_both_ports_two_rules (s : Service) (tcp udp : String)
    (ht : s.tcpPorts = some tcp) (hu : s.udpPorts = some udp)
    (htne : tcp ≠ "") (hune : udp ≠ "")
    (key : TargetKey) (value : List String) (notes : String) :
    portRules s key value notes true
      = [create_rule key value notes (some "tcp") (some tcp),
         create_rule key value notes (some "udp") (some udp)]
    ∧ (create_rule key value notes (some "tcp") (some tcp)).protocol = some "tcp"
    ∧ (create_rule key value notes (some "tcp") (some tcp)).ports = some (pyStrip tcp)
    ∧ (create_rule key value notes (some "udp") (some udp)).protocol = some "udp"
    ∧ (create_rule key value notes (some "udp") (some udp)).ports = some (pyStrip udp) := by
  refine ⟨portRules_both s key value notes tcp udp ht hu htne hune, ?_, ?_, ?_, ?_⟩
  · rw [create_rule_some_fields _ _ _ _ _ (by decide) htne]
  · rw [create_rule_some_fields _ _ _ _ _ (by decide) htne]
  · rw [create_rule_some_fields _ _ _ _ _ (by decide) hune]
  · rw [create_rule_some_fields _ _ _ _ _ (by decide) hune]

theorem c3_witness :
    ({ tcpPorts := some "443", udpPorts := some "3478" } : Service).tcpPorts
        = some "443"
    ∧ ({ tcpPorts := some "443", udpPorts := some "3478" } : Service).udpPorts
        = some "3478"
    ∧ ("443" : String) ≠ "" ∧ ("3478" : String) ≠ ""
    ∧ portRules { tcpPorts := some "443", udpPorts := some "3478" }
        .remoteHosts ["h.com"] "" true
      = [create_rule .remoteHosts ["h.com"] "" (some "tcp") (some "443"),
         create_rule .remoteHosts ["h.com"] "" (some "udp") (some "3478")] :=
  ⟨rfl, rfl, by decide, by decide,
    (c3_both_ports_two_rules { tcpPorts := some "443", udpPorts := some "3478" }
      "443" "3478" rfl rfl (by decide) (by decide) .remoteHosts ["h.com"] "").1⟩

/-- C4: a record declaring neither TCP nor UDP ports yields, per accepted
target, exactly one rule with no protocol and no ports field, whether
port-rule generation is enabled or disabled. -/
theorem c4_no_ports_single_rule (s : Service) (ht : s.tcpPorts = none)
    (hu : s.udpPorts = none) (key : TargetKey) (value : List String)
    (notes : String) (apr : Bool) :
    portRules s key value notes apr = [create_rule key value notes none none]
    ∧ (create_rule key value notes none none).protocol = none
    ∧ (create_rule key value notes none none).ports = none := by
  refine ⟨portRules_noPorts s key value notes apr (by rw [ht]; rfl)
    (by rw [hu]; rfl), ?_, ?_⟩
  · rw [create_rule_none_fields]
  · rw [create_rule_none_fields]

theorem c4_witness :
    ({} : Service).tcpPorts = none ∧ ({} : Service).udpPorts = none
    ∧ portRules {} .remoteHosts ["h.com"] "" true
        = [create_rule .remoteHosts ["h.com"] "" none none]
    ∧ portRules {} .remoteHosts ["h.com"] "" false
        = [create_rule .remoteHosts ["h.com"] "" none none] :=
  ⟨rfl, rfl,
    (c4_no_ports_single_rule {} rfl rfl .remoteHosts ["h.com"] "" true).1,
    (c4_no_ports_single_rule {} rfl rfl .remoteHosts ["h.com"] "" false).1⟩

/-- C5: a non-list fetched value is read through its `"values"` field; when
that field is absent the input behaves as an empty collection and zero rules
are produced, and when present extraction proceeds exactly as for the bare
list. -/
theorem c5_values_fallback (apr : Bool) :
    extract_rules apr (.dict none) = []
    ∧ ∀ vs, extract_rules apr (.dict (some vs)) = extract_rules apr (.list vs) := by
  constructor
  · rfl
  · intro vs
    rfl

/-- C6: extraction is a homomorphism on the record list (rules of earlier
records precede rules of later records), and within one record the rules of
its URL targets precede the rules of its IP targets. -/
theorem c6_order_preserved (apr : Bool) :
    (∀ xs ys, extract_rules apr (.list (xs ++ ys))
        = extract_rules apr (.list xs) ++ extract_rules apr (.list ys))
    ∧ (∀ s recs, extract_rules apr (.list (s :: recs))
        = serviceRules apr s ++ extract_rules apr (.list recs))
    ∧ (∀ s, serviceRules apr s
        = s.urls.flatMap (urlRules s (build_notes s) apr)
          ++ s.ips.flatMap (fun ip =>
              portRules s .remoteAddresses [ip] (build_notes s) apr)) := by
  refine ⟨?_, ?_, ?_⟩
  · intro xs ys
    rw [extract_rules, extract_rules, extract_rules, List.flatMap_append]
  · intro s recs
    rw [extract_rules, extract_rules, List.flatMap_cons]
  · intro s
    rw [serviceRules]

/-- C7 as stated is refuted: fields guarded only by presence are rendered
even when their value is empty.  A record whose `category` is the empty
string yields the notes line `"category: "` instead of omitting the empty
field. -/
theorem c7_counterexample :
    build_notes { category := some "" } = "category: "
    ∧ ("category: " : String) ≠ "" := by
  constructor
  · decide
  · decide

/-- The notes-field list as the amended specification describes it: each
field is a key with an optional rendered value; for the two port specs and
the free-text notes an empty value counts as absent, while the other fields
are rendered whenever present. -/
def spec_note_fields (s : Service) : List (String × Option String) :=
  [("id", s.id), ("serviceArea", s.serviceArea),
   ("serviceAreaDisplayName", s.serviceAreaDisplayName),
   ("tcpPorts", s.tcpPorts.bind (fun v => if v = "" then none else some v)),
   ("udpPorts", s.udpPorts.bind (fun v => if v = "" then none else some v)),
   ("category", s.category), ("expressRoute", s.expressRoute),
   ("required", s.required),
   ("notes", s.notes.bind (fun v => if v = "" then none else some v))]

/-- The notes string as the amended specification describes it: render each
present field as `key: value`, omit absent fields, join with a newline. -/
def spec_notes (s : Service) : String :=
  String.intercalate "\n"
    (((spec_note_fields s).map
        (fun kv => kv.2.map (fun v => kv.1 ++ ": " ++ v))).filterMap id)

theorem notePartTruthy_eq (k : String) (v : Option String) :
    notePartTruthy k v
      = (v.bind (fun x => if x = "" then none else some x)).map
          (fun x => k ++ ": " ++ x) := by
  cases v with
  | none => rfl
  | some x =>
    by_cases hx : x = ""
    · simp [notePartTruthy, hx]
    · simp [notePartTruthy, hx]

/-- C7 (amended): the notes string is built from the id, service area,
display name, TCP/UDP port, category, expressRoute, required and free-text
fields, rendering each present field as `key: value` joined by newlines,
omitting absent fields — and, for the port specs and the free-text notes,
also omitting empty values — and this string is attached verbatim to every
rule derived from the record. -/
theorem c7_notes (apr : Bool) (s : Service) :
    build_notes s = spec_notes s
    ∧ ∀ r ∈ serviceRules apr s, r.notes = build_notes s := by
  constructor
  · rw [build_notes, spec_notes, spec_note_fields]
    simp only [List.map_cons, List.map_nil]
    congr 1
    simp only [notePart, notePartTruthy_eq]
  · intro r hr
    obtain ⟨key, value, hpr⟩ := mem_serviceRules apr s r hr
    exact (mem_portRules _ _ _ _ _ _ hpr).2.2.2.2.1

theorem c7_witness :
    build_notes { id := some "1", tcpPorts := some "443", urls := ["a.com"] }
      = spec_notes { id := some "1", tcpPorts := some "443", urls := ["a.com"] }
    ∧ (create_rule .remoteHosts ["a.com"]
        (build_notes { id := some "1", tcpPorts := some "443", urls := ["a.com"] })
        (some "tcp") (some "443"))
        ∈ serviceRules true { id := some "1", tcpPorts := some "443", urls := ["a.com"] }
    ∧ (create_rule .remoteHosts ["a.com"]
        (build_notes { id := some "1", tcpPorts := some "443", urls := ["a.com"] })
        (some "tcp") (some "443")).notes
      = build_notes { id := some "1", tcpPorts := some "443", urls := ["a.com"] } :=
  ⟨(c7_notes true { id := some "1", tcpPorts := some "443", urls := ["a.com"] }).1,
    by decide,
    (c7_notes true { id := some "1", tcpPorts := some "443", urls := ["a.com"] }).2
      _ (by decide)⟩

/-- C8: the writer builds the subscription object with name
`"{Provider} Cloud Access"` (provider capitalized), the fixed templated
description naming the provider, the fixed author tag, and the given rule
sequence unchanged; it writes the indent-4 JSON dump of that object at the
deterministic path `OUTPUT_DIR/cloud_rules_<provider>.lsrules`. -/
theorem c8_rule_file (rules : List Rule) (provider : String) :
    (generate_ov_file rules provider).1.name
        = pyCapitalize provider ++ " Cloud Access"
    ∧ (generate_ov_file rules provider).1.description
        = "Allows outbound traffic to " ++ pyCapitalize provider
            ++ " Cloud services."
    ∧ (generate_ov_file rules provider).1.author = "Automated Script"
    ∧ (generate_ov_file rules provider).1.rules = rules
    ∧ (generate_ov_file rules provider).2.1
        = OUTPUT_DIR ++ "/" ++ ("cloud_rules_" ++ provider ++ ".lsrules")
    ∧ (generate_ov_file rules provider).2.2
        = json_dump (rulefile_to_json (generate_ov_file rules provider).1) :=
  ⟨rfl, rfl, rfl, rfl, rfl, rfl⟩

/-- C9: serializing a rule file to its JSON text and parsing the text back
yields exactly the serialized structure — same `name`, `description` and
`author` string members and a `rules` array of the same length with the
same elements. -/
theorem c9_round_trip (f : RuleFile) :
    json_loads (json_dump (rulefile_to_json f)) = some (rulefile_to_json f)
    ∧ rulefile_to_json f
        = .obj [("name", .str f.name), ("description", .str f.description),
                ("author", .str f.author),
                ("rules", .arr (f.rules.map rule_to_json))]
    ∧ (f.rules.map rule_to_json).length = f.rules.length := by
  refine ⟨json_loads_json_dump _, rfl, by simp⟩

/-- C10: in every emitted rule the `protocol` field is present exactly when
the `ports` field is present, and the ports value is the record's declared
port spec for that protocol with surrounding whitespace stripped. -/
theorem c10_protocol_iff_ports (apr : Bool) :
    (∀ inp r, r ∈ extract_rules apr inp →
        (r.protocol.isSome ↔ r.ports.isSome))
    ∧ (∀ s r, r ∈ serviceRules apr s →
        (r.protocol.isSome ↔ r.ports.isSome)
        ∧ (r.protocol = some "tcp" →
            ∃ spec, s.tcpPorts = some spec ∧ r.ports = some (pyStrip spec))
        ∧ (r.protocol = some "udp" →
            ∃ spec, s.udpPorts = some spec ∧ r.ports = some (pyStrip spec))
        ∧ (r.protocol = none → r.ports = none)) := by
  have hsvc : ∀ s r, r ∈ serviceRules apr s →
      (r.protocol.isSome ↔ r.ports.isSome)
      ∧ (r.protocol = some "tcp" →
          ∃ spec, s.tcpPorts = some spec ∧ r.ports = some (pyStrip spec))
      ∧ (r.protocol = some "udp" →
          ∃ spec, s.udpPorts = some spec ∧ r.ports = some (pyStrip spec))
      ∧ (r.protocol = none → r.ports = none) := by
    intro s r hr
    obtain ⟨key, value, hpr⟩ := mem_serviceRules apr s r hr
    obtain ⟨-, -, -, -, -, hcase⟩ := mem_portRules _ _ _ _ _ _ hpr
    rcases hcase with ⟨hp, hq⟩ | ⟨spec, hs, hne, hp, hq⟩ | ⟨spec, hs, hne, hp, hq⟩
    · refine ⟨by rw [hp, hq], ?_, ?_, fun _ => hq⟩
      · intro h
        rw [hp] at h
        exact absurd h (by simp)
      · intro h
        rw [hp] at h
        exact absurd h (by simp)
    · refine ⟨by rw [hp, hq]; simp, ?_, ?_, ?_⟩
      · intro _
        exact ⟨spec, hs, hq⟩
      · intro h
        rw [hp] at h
        exact absurd h (by simp)
      · intro h
        rw [hp] at h
        exact absurd h (by simp)
    · refine ⟨by rw [hp, hq]; simp, ?_, ?_, ?_⟩
      · intro h
        rw [hp] at h
        exact absurd h (by simp)
      · intro _
        exact ⟨spec, hs, hq⟩
      · intro h
        rw [hp] at h
        exact absurd h (by simp)
  refine ⟨?_, hsvc⟩
  intro inp r hr
  cases inp with
  | list recs =>
    rw [extract_rules] at hr
    rw [List.mem_flatMap] at hr
    obtain ⟨s, -, hrs⟩ := hr
    exact (hsvc s r hrs).1
  | dict values =>
    rw [extract_rules] at hr
    rw [List.mem_flatMap] at hr
    obtain ⟨s, -, hrs⟩ := hr
    exact (hsvc s r hrs).1

theorem c10_witness :
    (create_rule .remoteHosts ["a.com"]
        (build_notes { tcpPorts := some "443", urls := ["a.com"] })
        (some "tcp") (some "443"))
      ∈ extract_rules true (.list [{ tcpPorts := some "443", urls := ["a.com"] }])
    ∧ ((create_rule .remoteHosts ["a.com"]
        (build_notes { tcpPorts := some "443", urls := ["a.com"] })
        (some "tcp") (some "443")).protocol.isSome
      ↔ (create_rule .remoteHosts ["a.com"]
        (build_notes { tcpPorts := some "443", urls := ["a.com"] })
        (some "tcp") (some "443")).ports.isSome) :=
  ⟨by decide,
    (c10_protocol_iff_ports true).1
      (.list [{ tcpPorts := some "443", urls := ["a.com"] }]) _ (by decide)⟩

end CloudRules
